import Mathlib

/-!
Verification of the dynamorm model layer (`src/models/models.js`).

The JavaScript source defines two classes:

* `Model` — a schema-validated attribute container with `populate`,
  `getAttributes`, `validate` and `getValidationErrors`;
* `DbModel extends Model` — an Active-Record style DynamoDB row with
  `save`, `findByPk`, `findAllByPk`, `findAllBy` and four internal
  request-shaping wrappers `_getItem`, `_batchGetItems`, `_queryItems`,
  `_putItem`.

The embedding below models JavaScript values with an inductive `JSVal`,
JavaScript objects with insertion-ordered association lists (`Obj`), the
schema collaborator (a tcomb-like struct that raises on the first invalid
attribute, per the source's documented contract) with an ordered rule
list, and the remote DynamoDB store with explicit response oracles.  Every
remote-facing operation returns, besides its result, the list of store
calls it issued, so that claims about the number and shape of remote
invocations are statable.
-/

set_option autoImplicit false

namespace Dynamorm

/-- JavaScript attribute values as they occur in this library: strings,
numbers, booleans, `null` and `undefined` (absent). -/
inductive JSVal where
  | undefined
  | null
  | bool (b : Bool)
  | num (n : Int)
  | str (s : String)
deriving DecidableEq, Repr

/-- JavaScript truthiness for `JSVal`: `undefined`, `null`, `false`, `0`
and the empty string are falsy, everything else is truthy. -/
def JSVal.truthy : JSVal → Bool
  | .undefined => false
  | .null => false
  | .bool b => b
  | .num n => n != 0
  | .str s => s != ""

/-- A JavaScript object: an insertion-ordered association list with
unique keys maintained by `objSet`. -/
abbrev Obj := List (String × JSVal)

/-- Property read (`o[k]`), as an `Option`: `none` plays the role of
`undefined` for a missing own property. -/
def objGet (o : Obj) (k : String) : Option JSVal :=
  (o.find? (fun p => p.1 == k)).map Prod.snd

/-- `hasOwnProperty`. -/
def objHas (o : Obj) (k : String) : Bool :=
  o.any (fun p => p.1 == k)

/-- Property assignment (`o[k] = v`): overwrite in place if the key is
present, append otherwise (JavaScript objects keep insertion order). -/
def objSet (o : Obj) (k : String) (v : JSVal) : Obj :=
  if o.any (fun p => p.1 == k) then
    o.map (fun p => if p.1 == k then (k, v) else p)
  else o ++ [(k, v)]

/-- The schema collaborator (`tcomb` struct in the tests).  Its contract,
documented at `models.js:62-69`, is: an ordered mapping of attribute
names to validation rules, whose constructor-like entry point throws a
descriptive `Error` for the first invalid attribute.  `rules` is that
ordered mapping; `errMsg` renders the error message for an offending
attribute name and supplied value. -/
structure Schema where
  rules : List (String × (JSVal → Bool))
  errMsg : String → JSVal → String

/-- The declared attribute names (`schema.meta.props`), in schema order. -/
def Schema.props (s : Schema) : List String :=
  s.rules.map Prod.fst

/-- The value the schema sees for an attribute of an instance: the own
property if set, `undefined` otherwise. -/
def attrValue (attrs : Obj) (n : String) : JSVal :=
  (objGet attrs n).getD .undefined

/-- The first schema rule, in declared order, that the candidate
attribute set violates, together with the supplied value (`new
this._schema(this)` throws exactly for this attribute). -/
def firstFailure (attrs : Obj) : List (String × (JSVal → Bool)) → Option (String × JSVal)
  | [] => none
  | p :: rest =>
    if p.2 (attrValue attrs p.1) then firstFailure attrs rest
    else some (p.1, attrValue attrs p.1)

/-- An in-memory `Model` instance: its schema reference (`_schema`), its
dynamically assigned attribute properties, and its error list
(`_errors`). -/
structure Model where
  schema : Schema
  attrs : Obj
  errors : List String

/-- `Model.populate(values)` (`models.js:32-41`): for each entry of
`values`, assign it onto the instance when its name is declared in
`schema.meta.props`; undeclared names are skipped.  Returns the (updated)
instance. -/
def Model.populate (m : Model) (values : Obj) : Model :=
  { m with
    attrs := values.foldl
      (fun a p => if m.schema.props.contains p.1 then objSet a p.1 p.2 else a)
      m.attrs }

/-- Worker for `getAttributes`: walk the declared names in schema order
and copy each own property into the result object. -/
def getAttrsAux (attrs : Obj) (acc : Obj) : List String → Obj
  | [] => acc
  | n :: rest =>
    getAttrsAux attrs
      (match objGet attrs n with
       | some v => objSet acc n v
       | none => acc) rest

/-- `Model.getAttributes()` (`models.js:50-59`): the schema-declared
attributes currently set on the instance, in schema order. -/
def Model.getAttributes (m : Model) : Obj :=
  getAttrsAux m.attrs [] m.schema.props

/-- `Model.validate()` (`models.js:71-80`): reset `_errors`, run the
schema's validating constructor; on success return `true`, on the first
failure record its message and return `false`.  Returns the updated
instance paired with the boolean. -/
def Model.validate (m : Model) : Model × Bool :=
  match firstFailure m.attrs m.schema.rules with
  | none => ({ m with errors := [] }, true)
  | some p => ({ m with errors := [m.schema.errMsg p.1 p.2] }, false)

/-- `Model.getValidationErrors()` (`models.js:89-91`). -/
def Model.getValidationErrors (m : Model) : List String :=
  m.errors

/-- A fresh `new Model(schema, initialValues)` (`models.js:19-23`). -/
def mkModel (s : Schema) (initialValues : Obj) : Model :=
  Model.populate { schema := s, attrs := [], errors := [] } initialValues

/-- Process-wide configuration read by the `DbModel` constructor:
`process.env.project` and `process.env.stage`, each possibly undefined. -/
structure Env where
  project : Option String
  stage : Option String

/-- The default table name computed at `models.js:109-111`:
`[process.env.project, process.env.stage, this.constructor.name]`
filtered by `p !== undefined` and joined with `'-'`. -/
def defaultTableName (env : Env) (ctorName : String) : String :=
  String.intercalate "-" (([env.project, env.stage, some ctorName]).filterMap id)

/-- A concrete `DbModel` subclass: its constructor name, its schema, the
explicit table name it assigns after `super(...)` (if any), and the key
attribute names it declares via the `partitionKey` / `sortKey` setters. -/
structure DbClass where
  name : String
  schema : Schema
  tableNameOverride : Option String
  partitionKey : String
  sortKey : String

/-- A `DbModel` instance: the inherited `Model` state plus `_tableName`,
`_partitionKey` and `_sortKey`. -/
structure DbModel extends Model where
  tableName : String
  partitionKey : String
  sortKey : String

/-- `new C(initialValues)` for a concrete `DbModel` subclass `C`: the
`Model` constructor populates the initial values, the `DbModel`
constructor derives the default table name (`models.js:106-112`), and the
subclass constructor body may then override it and sets the key names. -/
def DbClass.mkInstance (c : DbClass) (env : Env) (initialValues : Obj) : DbModel :=
  { toModel := mkModel c.schema initialValues
    tableName := c.tableNameOverride.getD (defaultTableName env c.name)
    partitionKey := c.partitionKey
    sortKey := c.sortKey }

/-- `populate` lifted to `DbModel` (inherited from `Model`). -/
def DbModel.populate (m : DbModel) (values : Obj) : DbModel :=
  { m with toModel := m.toModel.populate values }

/-! ## The remote store and the internal key-value wrappers

Each internal wrapper is embedded as a function that takes a response
oracle for the corresponding DocumentClient operation and returns its
result together with the list of requests it sent, so that the number and
shape of remote calls are part of the semantics. -/

/-- The request sent by `docClient.get` in `_getItem`:
`{ TableName: model._tableName, ...opts }` where the callers pass
`opts = { Key }`. -/
structure GetOpts where
  TableName : String
  Key : Obj
deriving DecidableEq, Repr

/-- `DbModel._getItem(model, opts)` (`models.js:236-244`): one `get` call,
unwrapping `data.Item` (absent when there is no matching item). -/
def getItemRun (m : DbModel) (key : Obj) (resp : GetOpts → Option Obj) :
    Option Obj × List GetOpts :=
  let options : GetOpts := { TableName := m.tableName, Key := key }
  (resp options, [options])

/-- The request sent by `docClient.batchGet` in `_batchGetItems`:
`RequestItems` maps the model's table name to `{ Keys }`. -/
structure BatchGetOpts where
  TableName : String
  Keys : List Obj
deriving DecidableEq, Repr

/-- `DbModel._batchGetItems(model, opts)` (`models.js:256-268`): one
`batchGet` call, unwrapping `data.Responses[model._tableName]`. -/
def batchGetItemsRun (m : DbModel) (keys : List Obj) (resp : BatchGetOpts → List Obj) :
    List Obj × List BatchGetOpts :=
  let options : BatchGetOpts := { TableName := m.tableName, Keys := keys }
  (resp options, [options])

/-- The request sent by `docClient.query` in `_queryItems`. -/
structure QuerySend where
  TableName : String
  KeyConditionExpression : String
  ExpressionAttributeValues : Obj
  ExclusiveStartKey : Option Obj
deriving DecidableEq, Repr

/-- One `docClient.query` response: `Items` and the optional
`LastEvaluatedKey` continuation token. -/
structure QueryResp where
  Items : List Obj
  LastEvaluatedKey : Option Obj
deriving DecidableEq, Repr

/-- `DbModel._queryItems(model, opts)` (`models.js:280-296`): issue the
query; if the response carries `LastEvaluatedKey`, set it as
`ExclusiveStartKey` and recurse, concatenating the recursive items after
this page's.  The store is modelled by the list of successive responses
it gives; recursion is structural on that list. -/
def queryItemsRun (opts : QuerySend) : List QueryResp → List Obj × List QuerySend
  | [] => ([], [])
  | resp :: rest =>
    match resp.LastEvaluatedKey with
    | none => (resp.Items, [opts])
    | some k =>
      let r := queryItemsRun { opts with ExclusiveStartKey := some k } rest
      (resp.Items ++ r.1, opts :: r.2)

/-- The request sent by `docClient.put` in `_putItem`. -/
structure PutOpts where
  TableName : String
  Item : Obj
  ReturnValues : String
deriving DecidableEq, Repr

/-- `DbModel._putItem(model, opts)` (`models.js:312-329`), with `save()`'s
`opts = {}`: validate first and reject with
`new Error(model.getValidationErrors()[0])` issuing no store call;
otherwise issue one `put` of `{ TableName, Item: getAttributes(),
ReturnValues: 'NONE' }` and resolve with the store's response. -/
def putItemRun (m : DbModel) (resp : PutOpts → Obj) :
    Except String Obj × List PutOpts :=
  let vr := m.toModel.validate
  if vr.2 then
    let options : PutOpts :=
      { TableName := m.tableName, Item := vr.1.getAttributes, ReturnValues := "NONE" }
    (.ok (resp options), [options])
  else
    (.error (vr.1.getValidationErrors.headD ""), [])

/-! ## The public operations -/

/-- `DbModel.save()` (`models.js:148-150`): `DbModel._putItem(this)`. -/
def DbModel.save (m : DbModel) (resp : PutOpts → Obj) :
    Except String Obj × List PutOpts :=
  putItemRun m resp

/-- `DbModel.findByPk(partitionKey, sortKey)` (`models.js:160-169`):
build the key from a fresh instance's key names — the sort component only
when the supplied sort key value is truthy — issue one `_getItem`, and
populate the fresh instance when an item came back, returning
`undefined` (`none`) unchanged otherwise. -/
def findByPk (c : DbClass) (env : Env) (resp : GetOpts → Option Obj)
    (partitionKey sortKey : JSVal) : Option DbModel × List GetOpts :=
  let model := c.mkInstance env []
  let key0 := objSet [] model.partitionKey partitionKey
  let key := if sortKey.truthy then objSet key0 model.sortKey sortKey else key0
  let r := getItemRun model key resp
  (r.1.map (fun item => model.populate item), r.2)

/-- The key-list loop of `findAllByPk` (`models.js:182-191`), carrying the
loop index: a key is pushed for each truthy partition key value, with the
sort component added when `sortKeys && sortKeys.length && sortKeys[i]`
holds (an out-of-range `sortKeys[i]` is `undefined`, hence falsy). -/
def buildBatchKeys (pName sName : String) (sortKeys : Option (List JSVal)) :
    List JSVal → Nat → List Obj
  | [], _ => []
  | pk :: rest, i =>
    let tail := buildBatchKeys pName sName sortKeys rest (i + 1)
    if pk.truthy then
      let key := objSet [] pName pk
      let key :=
        match sortKeys with
        | some l =>
          if l.length != 0 && (l.getD i .undefined).truthy then
            objSet key sName (l.getD i .undefined)
          else key
        | none => key
      key :: tail
    else tail

/-- `DbModel.findAllByPk(partitionKeys, sortKeys)` (`models.js:179-197`):
build the batch keys, issue one `_batchGetItems`, and construct one new
populated instance per returned item, in response order. -/
def findAllByPk (c : DbClass) (env : Env) (resp : BatchGetOpts → List Obj)
    (partitionKeys : List JSVal) (sortKeys : Option (List JSVal)) :
    List DbModel × List BatchGetOpts :=
  let model := c.mkInstance env []
  let keys := buildBatchKeys model.partitionKey model.sortKey sortKeys partitionKeys 0
  let r := batchGetItemsRun model keys resp
  (r.1.map (fun item => c.mkInstance env item), r.2)

/-- `DbModel.findAllBy(expression, values, opts)` (`models.js:212-224`):
issue `_queryItems` with the key-condition expression and values (plus an
optional caller-supplied `ExclusiveStartKey` from `opts`), and construct
one new populated instance per returned item, in page order. -/
def findAllBy (c : DbClass) (env : Env) (expression : String) (values : Obj)
    (startKey : Option Obj) (pages : List QueryResp) :
    List DbModel × List QuerySend :=
  let model := c.mkInstance env []
  let options : QuerySend :=
    { TableName := model.tableName
      KeyConditionExpression := expression
      ExpressionAttributeValues := values
      ExclusiveStartKey := startKey }
  let r := queryItemsRun options pages
  (r.1.map (fun item => c.mkInstance env item), r.2)

/-- A well-formed page stream: the store signals a continuation token on
every response except the last, and none on the last. -/
def pagesWF : List QueryResp → Bool
  | [] => false
  | [r] => r.LastEvaluatedKey.isNone
  | r :: rest => r.LastEvaluatedKey.isSome && pagesWF rest

/-! ## Specification-side definitions

These definitions follow the words of the specification claims (not the
source); they exist to be compared with the source-derived definitions
above. -/

/-- Follows the spec claim's words for the default table name: the join,
with a fixed separator, of the non-empty values among project, stage and
type name, each omitted if absent. -/
def tableNameSpec (env : Env) (ctorName : String) : String :=
  String.intercalate "-"
    ((([env.project, env.stage, some ctorName]).filterMap id).filter (fun s => s ≠ ""))

/-- The batch key built for index `i` with partition key value `pk`: the
partition entry, plus the sort entry when the sort-key list is supplied
and its value at `i` is truthy. -/
def batchKeySpecAt (pName sName : String) (sortKeys : Option (List JSVal))
    (i : Nat) (pk : JSVal) : Obj :=
  match sortKeys with
  | some l =>
    if (l.getD i .undefined).truthy then
      objSet (objSet [] pName pk) sName (l.getD i .undefined)
    else objSet [] pName pk
  | none => objSet [] pName pk

/-- Follows the amended claim's words for `findAllByPk`'s batch-read
request: one key per index whose partition key value is truthy, in index
order. -/
def batchKeysSpec (pName sName : String) (sortKeys : Option (List JSVal))
    (pks : List JSVal) : List Obj :=
  ((List.enum pks).filter (fun q => q.2.truthy)).map
    (fun q => batchKeySpecAt pName sName sortKeys q.1 q.2)

/-! ## Concrete sample data for witnesses and counterexamples -/

/-- A tcomb-`t.String`-like rule: accepts exactly string values. -/
def strRule : JSVal → Bool := fun v =>
  match v with
  | .str _ => true
  | _ => false

/-- A sample two-attribute schema, as in the repository's test mocks. -/
def sampleSchema : Schema :=
  { rules := [("keyField", strRule), ("myTextField", strRule)]
    errMsg := fun n _ => "Invalid value supplied to " ++ n }

def sampleEnv : Env := { project := some "MyProject", stage := some "MyStage" }

/-- A sample concrete `DbModel` subclass. -/
def sampleClass : DbClass :=
  { name := "Widget"
    schema := sampleSchema
    tableNameOverride := none
    partitionKey := "keyField"
    sortKey := "rangeField" }

def sampleItem : Obj := [("keyField", .str "a"), ("myTextField", .str "b")]

/-- A valid sample instance (both declared attributes are strings). -/
def sampleValid : DbModel := sampleClass.mkInstance sampleEnv sampleItem

/-- An invalid sample instance (`myTextField` is missing, so the second
schema rule fails on `undefined`). -/
def sampleInvalid : DbModel :=
  sampleClass.mkInstance sampleEnv [("keyField", .str "a")]

/-- A two-page store response stream: two items plus a continuation
token, then one item and no token. -/
def samplePages : List QueryResp :=
  [ { Items := [[("keyField", .str "a"), ("myTextField", .str "x")],
                [("keyField", .str "b"), ("myTextField", .str "y")]]
      LastEvaluatedKey := some [("keyField", .str "b")] }
  , { Items := [[("keyField", .str "c"), ("myTextField", .str "z")]]
      LastEvaluatedKey := none } ]

/-! ## Object lemmas -/

theorem objGet_cons (q : String × JSVal) (o : Obj) (n : String) :
    objGet (q :: o) n = if q.1 == n then some q.2 else objGet o n := by
  simp only [objGet, List.find?_cons]
  cases h : (q.1 == n) <;> simp [h]

theorem objGet_eq_none_of_not_mem {o : Obj} {k : String}
    (h : k ∉ o.map Prod.fst) : objGet o k = none := by
  have hfind : o.find? (fun p => p.1 == k) = none := by
    rw [List.find?_eq_none]
    intro x hx hbeq
    exact h (List.mem_map.mpr ⟨x, hx, beq_iff_eq.mp hbeq⟩)
  simp [objGet, hfind]

theorem objGet_isSome_of_mem {o : Obj} {k : String}
    (h : k ∈ o.map Prod.fst) : (objGet o k).isSome = true := by
  obtain ⟨x, hx, hk⟩ := List.mem_map.mp h
  have : (o.find? (fun p => p.1 == k)).isSome := by
    rw [List.find?_isSome]
    exact ⟨x, hx, beq_iff_eq.mpr hk⟩
  simpa [objGet] using this

theorem objGet_objSet_self (o : Obj) (k : String) (v : JSVal) :
    objGet (objSet o k v) k = some v := by
  unfold objGet objSet
  by_cases h : o.any (fun p => p.1 == k) = true
  · rw [if_pos h, List.find?_map]
    have hp : ((fun p : String × JSVal => p.1 == k) ∘
          (fun p : String × JSVal => if p.1 == k then (k, v) else p))
        = (fun x : String × JSVal => x.1 == k) := by
      funext x
      by_cases hx : (x.1 == k) = true <;> simp [Function.comp, hx]
    rw [hp]
    have hs : (o.find? (fun x : String × JSVal => x.1 == k)).isSome = true := by
      rw [List.find?_isSome]
      rw [List.any_eq_true] at h
      exact h
    obtain ⟨q, hq⟩ := Option.isSome_iff_exists.mp hs
    have hqk := List.find?_some hq
    rw [hq]
    simp only [] at hqk
    simp [beq_iff_eq.mp hqk]
  · rw [if_neg h, List.find?_append]
    rw [Bool.not_eq_true, List.any_eq_false] at h
    have h0 : o.find? (fun p : String × JSVal => p.1 == k) = none :=
      List.find?_eq_none.mpr h
    simp [h0, List.find?_cons]

theorem objGet_objSet_ne (o : Obj) (k : String) (v : JSVal) {n : String}
    (hne : n ≠ k) : objGet (objSet o k v) n = objGet o n := by
  unfold objGet objSet
  by_cases h : o.any (fun p => p.1 == k) = true
  · rw [if_pos h, List.find?_map]
    have hp : ((fun p : String × JSVal => p.1 == n) ∘
          (fun p : String × JSVal => if p.1 == k then (k, v) else p))
        = (fun x : String × JSVal => x.1 == n) := by
      funext x
      by_cases hx : (x.1 == k) = true
      · have hx' : x.1 = k := beq_iff_eq.mp hx
        simp [Function.comp, hx, hx', (by simpa [eq_comm] using hne : ¬ k = n)]
      · simp [Function.comp, hx]
    rw [hp]
    cases hq : o.find? (fun x : String × JSVal => x.1 == n) with
    | none => rfl
    | some q =>
      have hqn : q.1 = n := by simpa using List.find?_some hq
      simp [hqn, hne]
  · rw [if_neg h, List.find?_append]
    have hlast : List.find? (fun p : String × JSVal => p.1 == n) [(k, v)] = none := by
      simp [List.find?_cons, (by simpa [eq_comm] using hne : ¬ k = n)]
    rw [hlast, Option.or_none]

/-! ## Characterizations of `populate`, `getAttributes` and `validate` -/

theorem objGet_populate_fold (props : List String) (vs : Obj) (attrs : Obj) (n : String)
    (hnd : (vs.map Prod.fst).Nodup) :
    objGet (vs.foldl (fun a p => if props.contains p.1 then objSet a p.1 p.2 else a) attrs) n
      = if props.contains n ∧ n ∈ vs.map Prod.fst then objGet vs n
        else objGet attrs n := by
  induction vs generalizing attrs with
  | nil => simp
  | cons p rest ih =>
    rw [List.foldl_cons]
    rw [List.map_cons, List.nodup_cons] at hnd
    obtain ⟨hp, hrest⟩ := hnd
    rw [ih _ hrest]
    by_cases hnp : n = p.1
    · have hmem2 : n ∈ (p :: rest).map Prod.fst := by simp [hnp]
      have hnmem : ¬ (props.contains n = true ∧ n ∈ rest.map Prod.fst) :=
        fun hc => hp (hnp ▸ hc.2)
      rw [if_neg hnmem]
      by_cases hc : props.contains n = true
      · have hcp : props.contains p.1 = true := hnp ▸ hc
        rw [if_pos (show props.contains n = true ∧ n ∈ List.map Prod.fst (p :: rest) from
          ⟨hc, hmem2⟩), hnp]
        simp only [hcp, if_true]
        rw [objGet_objSet_self, objGet_cons, if_pos (by simp)]
      · have hcp : props.contains p.1 = false := by simpa [hnp] using hc
        have hmp : p.1 ∉ props := by simpa using hcp
        have hmn : n ∉ props := by simpa using hc
        simp [hmp, hmn]
    · have hcons : objGet (p :: rest) n = objGet rest n := by
        rw [objGet_cons, if_neg (by simp [Ne.symm hnp])]
      have hstep : objGet (if props.contains p.1 then objSet attrs p.1 p.2 else attrs) n
          = objGet attrs n := by
        by_cases hcp : props.contains p.1 = true
        · rw [if_pos hcp, objGet_objSet_ne _ _ _ hnp]
        · rw [if_neg hcp]
      simp only [hstep, hcons, List.map_cons, List.mem_cons, hnp, false_or]

theorem objGet_populate (m : Model) (vs : Obj) (n : String)
    (hnd : (vs.map Prod.fst).Nodup) :
    objGet (m.populate vs).attrs n
      = if m.schema.props.contains n ∧ n ∈ vs.map Prod.fst then objGet vs n
        else objGet m.attrs n := by
  simpa [Model.populate] using
    objGet_populate_fold m.schema.props vs m.attrs n hnd

theorem objGet_getAttrsAux (attrs : Obj) (props : List String) (acc : Obj) (n : String) :
    objGet (getAttrsAux attrs acc props) n
      = if n ∈ props ∧ (objGet attrs n).isSome then objGet attrs n
        else objGet acc n := by
  induction props generalizing acc with
  | nil => simp [getAttrsAux]
  | cons m rest ih =>
    rw [getAttrsAux, ih]
    by_cases hnm : n = m
    · subst hnm
      cases hat : objGet attrs n with
      | some v =>
        by_cases hmem : n ∈ rest <;> simp [hmem, objGet_objSet_self]
      | none => simp
    · have hacc : objGet (match objGet attrs m with
          | some v => objSet acc m v
          | none => acc) n = objGet acc n := by
        cases objGet attrs m with
        | some v => exact objGet_objSet_ne _ _ _ hnm
        | none => rfl
      simp only [hacc, List.mem_cons, hnm, false_or]

theorem objGet_getAttributes (m : Model) (n : String) :
    objGet m.getAttributes n
      = if n ∈ m.schema.props ∧ (objGet m.attrs n).isSome then objGet m.attrs n
        else none := by
  rw [Model.getAttributes, objGet_getAttrsAux]
  rfl

theorem firstFailure_eq_find (attrs : Obj) (rules : List (String × (JSVal → Bool))) :
    firstFailure attrs rules
      = (rules.find? (fun p => ! p.2 (attrValue attrs p.1))).map
          (fun p => (p.1, attrValue attrs p.1)) := by
  induction rules with
  | nil => rfl
  | cons p rest ih =>
    rw [firstFailure, List.find?_cons]
    by_cases h : p.2 (attrValue attrs p.1) = true
    · simp [h, ih]
    · simp [h]

theorem validate_errors_irrel (m : Model) (es : List String) :
    ({ m with errors := es } : Model).validate = m.validate := by
  unfold Model.validate
  cases h : firstFailure m.attrs m.schema.rules <;> simp [h]

/-! ## Pagination and batch-key lemmas -/

theorem queryItemsRun_cons_none (opts : QuerySend) (items : List Obj)
    (rest : List QueryResp) :
    queryItemsRun opts ({ Items := items, LastEvaluatedKey := none } :: rest)
      = (items, [opts]) := rfl

theorem queryItemsRun_cons_some (opts : QuerySend) (items : List Obj) (k : Obj)
    (rest : List QueryResp) :
    queryItemsRun opts ({ Items := items, LastEvaluatedKey := some k } :: rest)
      = (items ++ (queryItemsRun { opts with ExclusiveStartKey := some k } rest).1,
         opts :: (queryItemsRun { opts with ExclusiveStartKey := some k } rest).2) := rfl

theorem queryItemsRun_wf (opts : QuerySend) (pages : List QueryResp)
    (h : pagesWF pages = true) :
    (queryItemsRun opts pages).1 = (pages.map QueryResp.Items).flatten
  ∧ (queryItemsRun opts pages).2.length = pages.length
  ∧ (queryItemsRun opts pages).2.map QuerySend.ExclusiveStartKey
      = opts.ExclusiveStartKey
        :: (pages.dropLast.map QueryResp.LastEvaluatedKey) := by
  induction pages generalizing opts with
  | nil => simp [pagesWF] at h
  | cons r rest ih =>
    obtain ⟨items, tok⟩ := r
    cases rest with
    | nil =>
      have hnone : tok = none := by
        simpa [pagesWF, Option.isNone_iff_eq_none] using h
      subst hnone
      simp [queryItemsRun_cons_none]
    | cons r2 rest2 =>
      have h2 : tok.isSome = true ∧ pagesWF (r2 :: rest2) = true := by
        simpa [pagesWF] using h
      obtain ⟨k, hk⟩ := Option.isSome_iff_exists.mp h2.1
      subst hk
      obtain ⟨ih1, ih2, ih3⟩ := ih { opts with ExclusiveStartKey := some k } h2.2
      rw [queryItemsRun_cons_some]
      refine ⟨?_, ?_, ?_⟩
      · simp [ih1]
      · simp [ih2]
      · simp only [List.map_cons, ih3]
        rfl

theorem batch_length_check (l : List JSVal) (i : Nat) :
    (l.length != 0 && (l.getD i .undefined).truthy) = (l.getD i .undefined).truthy := by
  cases l with
  | nil => simp [List.getD, JSVal.truthy]
  | cons a rest => simp

theorem buildBatchKeys_enumFrom (pName sName : String)
    (sortKeys : Option (List JSVal)) (pks : List JSVal) (i : Nat) :
    buildBatchKeys pName sName sortKeys pks i
      = ((List.enumFrom i pks).filter (fun q => q.2.truthy)).map
          (fun q => batchKeySpecAt pName sName sortKeys q.1 q.2) := by
  induction pks generalizing i with
  | nil => simp [buildBatchKeys]
  | cons pk rest ih =>
    rw [buildBatchKeys, List.enumFrom_cons]
    by_cases ht : pk.truthy = true
    · rw [List.filter_cons_of_pos (by simpa using ht), List.map_cons, if_pos ht, ih]
      cases sortKeys with
      | none => rfl
      | some l =>
        simp only [batchKeySpecAt, batch_length_check]
    · rw [List.filter_cons_of_neg (by simpa using ht), if_neg ht, ih]

theorem buildBatchKeys_eq_spec (pName sName : String)
    (sortKeys : Option (List JSVal)) (pks : List JSVal) :
    buildBatchKeys pName sName sortKeys pks 0
      = batchKeysSpec pName sName sortKeys pks := by
  rw [buildBatchKeys_enumFrom, batchKeysSpec, List.enum]

/-! ## Shared consequences used by several claims -/

theorem firstFailure_none_of_all (attrs : Obj)
    (rules : List (String × (JSVal → Bool)))
    (hall : ∀ p ∈ rules, p.2 (attrValue attrs p.1) = true) :
    firstFailure attrs rules = none := by
  rw [firstFailure_eq_find]
  have hfind : rules.find? (fun p => ! p.2 (attrValue attrs p.1)) = none := by
    rw [List.find?_eq_none]
    intro p hp
    simp [hall p hp]
  rw [hfind]
  rfl

theorem objGet_getAttributes_fresh_populate (s : Schema) (vs : Obj)
    (hnd : (vs.map Prod.fst).Nodup) (n : String) :
    objGet ((mkModel s []).populate vs).getAttributes n
      = if n ∈ s.props then objGet vs n else none := by
  rw [objGet_getAttributes]
  have hattrs : objGet ((mkModel s []).populate vs).attrs n
      = if s.props.contains n = true ∧ n ∈ vs.map Prod.fst then objGet vs n
        else none := by
    simpa using objGet_populate (mkModel s []) vs n hnd
  by_cases hn : n ∈ s.props
  · have hc : s.props.contains n = true := by simpa using hn
    by_cases hv : n ∈ vs.map Prod.fst
    · have haval : objGet ((mkModel s []).populate vs).attrs n = objGet vs n := by
        rw [hattrs, if_pos ⟨hc, hv⟩]
      rw [haval,
        if_pos ((⟨hn, objGet_isSome_of_mem hv⟩ :
          n ∈ ((mkModel s []).populate vs).schema.props
            ∧ (objGet vs n).isSome = true)),
        if_pos hn]
    · have hvn : objGet vs n = none := objGet_eq_none_of_not_mem hv
      have haval : objGet ((mkModel s []).populate vs).attrs n = none := by
        rw [hattrs, if_neg (fun hh => hv hh.2)]
      rw [haval, if_neg (fun hh => by simpa using hh.2), if_pos hn, hvn]
  · have haval : objGet ((mkModel s []).populate vs).attrs n = none := by
      have hc : ¬ s.props.contains n = true := by simpa using hn
      rw [hattrs, if_neg (fun hh => hc hh.1)]
    rw [haval, if_neg (fun hh => by simpa using hh.2), if_neg hn]

theorem objGet_attrs_fresh_populate_undeclared (s : Schema) (vs : Obj)
    (hnd : (vs.map Prod.fst).Nodup) (n : String) (hn : n ∉ s.props) :
    objGet ((mkModel s []).populate vs).attrs n = none := by
  have hc : ¬ s.props.contains n = true := by simpa using hn
  have hattrs : objGet ((mkModel s []).populate vs).attrs n
      = if s.props.contains n = true ∧ n ∈ vs.map Prod.fst then objGet vs n
        else none := by
    simpa using objGet_populate (mkModel s []) vs n hnd
  rw [hattrs, if_neg (fun hh => hc hh.1)]

/-! ## The claims -/

/-- C6: for every attribute map `values` (with the unique keys of a
JavaScript object), populating a fresh record and reading back
`getAttributes()` yields exactly the intersection of the keys of `values`
with the schema-declared attribute names, with matching values; entries
for undeclared names are dropped without error and are absent from both
the instance's attribute set and `getAttributes()`; `populate` returns
the instance itself (here: the updated record, schema and error list
untouched). -/
theorem populate_getAttributes_exact (s : Schema) (vs : Obj)
    (hnd : (vs.map Prod.fst).Nodup) :
    (∀ n, objGet ((mkModel s []).populate vs).getAttributes n
        = if n ∈ s.props then objGet vs n else none)
  ∧ (∀ n, n ∉ s.props → objGet ((mkModel s []).populate vs).attrs n = none)
  ∧ ((mkModel s []).populate vs).schema = s
  ∧ ((mkModel s []).populate vs).errors = [] := by
  refine ⟨fun n => objGet_getAttributes_fresh_populate s vs hnd n,
    fun n hn => objGet_attrs_fresh_populate_undeclared s vs hnd n hn, rfl, rfl⟩

/-- C6 witness: on the sample schema, a populated declared attribute is
returned and an undeclared one is dropped. -/
theorem populate_getAttributes_exact_witness :
    objGet ((mkModel sampleSchema []).populate
        [("keyField", JSVal.str "a"), ("other", JSVal.num 3)]).getAttributes "keyField"
      = some (JSVal.str "a")
  ∧ objGet ((mkModel sampleSchema []).populate
        [("keyField", JSVal.str "a"), ("other", JSVal.num 3)]).getAttributes "other"
      = none := by
  have h := populate_getAttributes_exact sampleSchema
    [("keyField", JSVal.str "a"), ("other", JSVal.num 3)] (by decide)
  refine ⟨?_, ?_⟩
  · rw [h.1 "keyField"]
    decide
  · rw [h.1 "other"]
    decide

/-- C7: `validate()` resets the error list (its outcome is independent of
previously recorded errors); on an instance satisfying every schema rule
it returns `true` and leaves `getValidationErrors()` empty; on an
instance violating at least one rule it returns `false` and
`getValidationErrors()` is exactly the one-element list naming the first
invalid attribute in schema-declared order. -/
theorem validate_contract (m : Model) (es : List String) :
    ({ m with errors := es } : Model).validate = m.validate
  ∧ ((∀ p ∈ m.schema.rules, p.2 (attrValue m.attrs p.1) = true) →
      m.validate.2 = true ∧ m.validate.1.getValidationErrors = [])
  ∧ (∀ n r, m.schema.rules.find? (fun p => ! p.2 (attrValue m.attrs p.1))
        = some (n, r) →
      m.validate.2 = false
      ∧ m.validate.1.getValidationErrors
          = [m.schema.errMsg n (attrValue m.attrs n)]) := by
  refine ⟨validate_errors_irrel m es, ?_, ?_⟩
  · intro hall
    have hf : firstFailure m.attrs m.schema.rules = none :=
      firstFailure_none_of_all m.attrs m.schema.rules hall
    constructor <;> simp [Model.validate, hf, Model.getValidationErrors]
  · intro n r hfind
    have hf : firstFailure m.attrs m.schema.rules
        = some (n, attrValue m.attrs n) := by
      rw [firstFailure_eq_find, hfind]
      rfl
    constructor <;> simp [Model.validate, hf, Model.getValidationErrors]

/-- C7 witness: the sample invalid instance (missing `myTextField`) fails
validation with exactly one recorded error naming `myTextField`, the
first failing attribute in schema order. -/
theorem validate_contract_witness :
    sampleInvalid.toModel.validate.2 = false
  ∧ sampleInvalid.toModel.validate.1.getValidationErrors
      = ["Invalid value supplied to myTextField"] := by
  have h := (validate_contract sampleInvalid.toModel []).2.2 "myTextField" strRule rfl
  exact ⟨h.1, by rw [h.2]; decide⟩

/-- C5: `findByPk` returns the store's not-found sentinel (`undefined`,
here `none`) unchanged when the store has no matching item, without
populating an instance and without throwing; when the store returns an
item it returns a fresh populated instance whose `getAttributes()`
equals the stored item's schema-declared attributes. -/
theorem findByPk_sentinel_or_populated (c : DbClass) (env : Env)
    (pk sk : JSVal) (item : Obj) (resp0 respI : GetOpts → Option Obj)
    (h0 : ∀ o, resp0 o = none) (hI : ∀ o, respI o = some item)
    (hnd : (item.map Prod.fst).Nodup) :
    (findByPk c env resp0 pk sk).1 = none
  ∧ (∃ inst, (findByPk c env respI pk sk).1 = some inst
      ∧ (∀ n, objGet inst.getAttributes n
          = if n ∈ c.schema.props then objGet item n else none)
      ∧ inst.errors = []) := by
  constructor
  · simp [findByPk, getItemRun, h0]
  · refine ⟨(c.mkInstance env []).populate item, ?_, ?_, rfl⟩
    · simp [findByPk, getItemRun, hI]
    · intro n
      exact objGet_getAttributes_fresh_populate c.schema item hnd n

/-- C5 witness: against an empty store the sentinel comes back; against a
store holding the sample item a populated instance comes back. -/
theorem findByPk_sentinel_or_populated_witness :
    (findByPk sampleClass sampleEnv (fun _ => none) (JSVal.str "a") JSVal.undefined).1 = none
  ∧ ((findByPk sampleClass sampleEnv (fun _ => some sampleItem)
        (JSVal.str "a") JSVal.undefined).1).isSome = true := by
  have h := findByPk_sentinel_or_populated sampleClass sampleEnv
    (JSVal.str "a") JSVal.undefined sampleItem (fun _ => none) (fun _ => some sampleItem)
    (fun _ => rfl) (fun _ => rfl) (by decide)
  refine ⟨h.1, ?_⟩
  obtain ⟨inst, hi, _, _⟩ := h.2
  rw [hi]
  rfl

/-- C10: when the supplied sort key value is falsy (empty string, `0`,
`false`, `null`, `undefined`), the point-lookup key sent by `findByPk`
contains only the partition-key entry — the sort component is omitted
even though a sort key value was supplied. -/
theorem findByPk_falsy_sortKey_key (c : DbClass) (env : Env)
    (resp : GetOpts → Option Obj) (pk sk : JSVal) (h : sk.truthy = false) :
    (findByPk c env resp pk sk).2
      = [{ TableName := (c.mkInstance env []).tableName
           Key := [(c.partitionKey, pk)] }] := by
  simp [findByPk, getItemRun, h, objSet, DbClass.mkInstance]

/-- C10 witness: an empty-string sort key value yields a partition-only
key. -/
theorem findByPk_falsy_sortKey_key_witness :
    (findByPk sampleClass sampleEnv (fun _ => none)
        (JSVal.str "a") (JSVal.str "")).2
      = [{ TableName := "MyProject-MyStage-Widget"
           Key := [("keyField", JSVal.str "a")] }] := by
  have h := findByPk_falsy_sortKey_key sampleClass sampleEnv (fun _ => none)
    (JSVal.str "a") (JSVal.str "") (by decide)
  rw [h]
  decide

/-- C2: `save()` on an instance whose attributes fail schema validation
rejects with an error carrying the first validation failure's
description and issues no call to the remote store. -/
theorem save_invalid_rejects_no_call (m : DbModel) (resp : PutOpts → Obj)
    (n : String) (r : JSVal → Bool)
    (hfind : m.schema.rules.find? (fun p => ! p.2 (attrValue m.attrs p.1))
      = some (n, r)) :
    (m.save resp).1 = .error (m.schema.errMsg n (attrValue m.attrs n))
  ∧ (m.save resp).2 = [] := by
  have hf : firstFailure m.attrs m.schema.rules
      = some (n, attrValue m.attrs n) := by
    rw [firstFailure_eq_find, hfind]
    rfl
  constructor <;>
    simp [DbModel.save, putItemRun, Model.validate, hf, Model.getValidationErrors]

/-- C2 witness: saving the sample invalid instance rejects with the first
failure's description and the put-call list is empty. -/
theorem save_invalid_rejects_no_call_witness :
    (sampleInvalid.save (fun o => o.Item)).1
      = Except.error "Invalid value supplied to myTextField"
  ∧ (sampleInvalid.save (fun o => o.Item)).2 = [] := by
  have h := save_invalid_rejects_no_call sampleInvalid (fun o => o.Item)
    "myTextField" strRule rfl
  exact ⟨by rw [h.1]; exact congrArg Except.error (by decide), h.2⟩

/-- C4: `save()` on an instance whose attributes pass schema validation
issues exactly one put call whose `Item` is the full `getAttributes()`
projection and whose `TableName` is the instance's table name, and
returns the store's raw write acknowledgment. -/
theorem save_valid_one_put (m : DbModel) (resp : PutOpts → Obj)
    (hall : ∀ p ∈ m.schema.rules, p.2 (attrValue m.attrs p.1) = true) :
    (m.save resp).1
      = .ok (resp { TableName := m.tableName
                    Item := m.getAttributes
                    ReturnValues := "NONE" })
  ∧ (m.save resp).2
      = [{ TableName := m.tableName
           Item := m.getAttributes
           ReturnValues := "NONE" }] := by
  have hf : firstFailure m.attrs m.schema.rules = none :=
    firstFailure_none_of_all m.attrs m.schema.rules hall
  constructor <;>
    simp [DbModel.save, putItemRun, Model.validate, hf, Model.getAttributes]

/-- C4 witness: saving the sample valid instance issues one put whose
`Item` is the attribute projection and whose `TableName` is the derived
table name, and the store's acknowledgment (here an echo of `Item`) is
returned. -/
theorem save_valid_one_put_witness :
    (sampleValid.save (fun o => o.Item)).1 = Except.ok sampleItem
  ∧ (sampleValid.save (fun o => o.Item)).2
      = [{ TableName := "MyProject-MyStage-Widget"
           Item := sampleItem
           ReturnValues := "NONE" }] := by
  have h := save_valid_one_put sampleValid (fun o => o.Item) (by decide)
  exact ⟨by rw [h.1]; exact congrArg Except.ok (by decide), by rw [h.2]; decide⟩

/-- C8 counterexample: with the project identifier configured as the
empty string (defined but empty) and no stage, the code joins the empty
segment in — `"-Widget"` — while the claim's "join of the non-empty
values" yields `"Widget"`. -/
theorem defaultTableName_empty_project_cex :
    defaultTableName { project := some "", stage := none } "Widget" = "-Widget"
  ∧ tableNameSpec { project := some "", stage := none } "Widget" = "Widget"
  ∧ defaultTableName { project := some "", stage := none } "Widget"
      ≠ tableNameSpec { project := some "", stage := none } "Widget" := by
  refine ⟨by decide, by decide, by decide⟩

/-- C8 amended: the default table name joins, with `'-'`, the values
among project, stage and type name that are defined (not `undefined`); a
defined-but-empty value contributes an empty segment.  Whenever every
defined component is non-empty this coincides with the claim's join of
the non-empty values, and the claim's two examples hold. -/
theorem defaultTableName_spec (env : Env) (name : String)
    (hp : env.project ≠ some "") (hs : env.stage ≠ some "") (hn : name ≠ "") :
    defaultTableName env name = tableNameSpec env name
  ∧ defaultTableName { project := some "MyProject", stage := some "MyStage" } "Widget"
      = "MyProject-MyStage-Widget"
  ∧ defaultTableName { project := none, stage := none } "Widget" = "Widget" := by
  refine ⟨?_, by decide, by decide⟩
  obtain ⟨p, s⟩ := env
  cases p with
  | none =>
    cases s with
    | none => simp [defaultTableName, tableNameSpec, hn]
    | some sv =>
      have hsv : sv ≠ "" := fun hh => hs (by rw [hh])
      simp [defaultTableName, tableNameSpec, hn, hsv]
  | some pv =>
    have hpv : pv ≠ "" := fun hh => hp (by rw [hh])
    cases s with
    | none => simp [defaultTableName, tableNameSpec, hn, hpv]
    | some sv =>
      have hsv : sv ≠ "" := fun hh => hs (by rw [hh])
      simp [defaultTableName, tableNameSpec, hn, hpv, hsv]

/-- C8 amended witness: at the claim's example configurations the
hypotheses hold and the derived names match. -/
theorem defaultTableName_spec_witness :
    defaultTableName sampleEnv "Widget" = tableNameSpec sampleEnv "Widget"
  ∧ defaultTableName { project := none, stage := none } "Widget" = "Widget" := by
  have h := defaultTableName_spec sampleEnv "Widget"
    (by decide) (by decide) (by decide)
  exact ⟨h.1, h.2.2⟩

/-- C9 counterexample: with one partition key value `"a"` and a parallel
sort key list holding the empty string at the same index, both lists
have an entry at index 0, yet the built batch key carries no sort
component (the code additionally requires the sort value to be truthy). -/
theorem findAllByPk_sort_entry_cex :
    (findAllByPk sampleClass sampleEnv (fun _ => [])
        [JSVal.str "a"] (some [JSVal.str ""])).2
      = [{ TableName := "MyProject-MyStage-Widget"
           Keys := [[("keyField", JSVal.str "a")]] }]
  ∧ objGet [("keyField", JSVal.str "a")] "rangeField" = none := by
  refine ⟨by decide, by decide⟩

/-- C9 amended: `findAllByPk` builds one batch-read key per index whose
partition key value is truthy, in index order, including the same-index
sort key value only when the sort-key list is supplied and its value at
that index is truthy; it issues exactly one batch-get call and returns
one newly constructed populated instance per returned item in the order
the store returns them. -/
theorem findAllByPk_one_batch_call (c : DbClass) (env : Env)
    (resp : BatchGetOpts → List Obj) (pks : List JSVal)
    (sks : Option (List JSVal)) :
    (findAllByPk c env resp pks sks).2
      = [{ TableName := (c.mkInstance env []).tableName
           Keys := batchKeysSpec c.partitionKey c.sortKey sks pks }]
  ∧ (findAllByPk c env resp pks sks).1
      = (resp { TableName := (c.mkInstance env []).tableName
                Keys := batchKeysSpec c.partitionKey c.sortKey sks pks }).map
          (fun item => c.mkInstance env item) := by
  constructor <;>
    simp [findAllByPk, batchGetItemsRun, buildBatchKeys_eq_spec, DbClass.mkInstance]

/-- C1: `findAllBy` follows pagination transparently: it reissues the
query with each response's continuation token as the next
`ExclusiveStartKey` until a response carries none, returning one
populated instance per item of the concatenation of all pages in
store-returned order — never a partial page. -/
theorem findAllBy_pagination (c : DbClass) (env : Env) (expression : String)
    (values : Obj) (pages : List QueryResp) (h : pagesWF pages = true) :
    (findAllBy c env expression values none pages).1
      = ((pages.map QueryResp.Items).flatten).map (fun item => c.mkInstance env item)
  ∧ (findAllBy c env expression values none pages).2.length = pages.length
  ∧ (findAllBy c env expression values none pages).2.map QuerySend.ExclusiveStartKey
      = none :: (pages.dropLast.map QueryResp.LastEvaluatedKey) := by
  obtain ⟨h1, h2, h3⟩ := queryItemsRun_wf
    { TableName := (c.mkInstance env []).tableName
      KeyConditionExpression := expression
      ExpressionAttributeValues := values
      ExclusiveStartKey := none } pages h
  exact ⟨by simp [findAllBy, h1], by simp [findAllBy, h2],
    by simpa [findAllBy] using h3⟩

/-- C1 witness: on the two-page sample stream (two items plus a token,
then one item and no token) `findAllBy` issues two calls, the second
carrying the first page's token, and returns exactly three instances in
page order. -/
theorem findAllBy_pagination_witness :
    (findAllBy sampleClass sampleEnv "keyField = :k" [(":k", JSVal.str "a")]
        none samplePages).1.length = 3
  ∧ ((findAllBy sampleClass sampleEnv "keyField = :k" [(":k", JSVal.str "a")]
        none samplePages).1.map (fun inst => objGet inst.attrs "keyField"))
      = [some (JSVal.str "a"), some (JSVal.str "b"), some (JSVal.str "c")]
  ∧ (findAllBy sampleClass sampleEnv "keyField = :k" [(":k", JSVal.str "a")]
        none samplePages).2.map QuerySend.ExclusiveStartKey
      = [none, some [("keyField", JSVal.str "b")]] := by
  have h := findAllBy_pagination sampleClass sampleEnv "keyField = :k"
    [(":k", JSVal.str "a")] samplePages (by decide)
  refine ⟨by rw [h.1]; decide, by rw [h.1]; decide, by rw [h.2.2]; decide⟩

/-- C3 counterexample: a single `_queryItems` invocation against a store
whose first response carries a continuation token issues two remote
calls, not one — the internal query wrapper recurses and paginates
itself. -/
theorem queryItems_two_calls_cex :
    (queryItemsRun
        { TableName := "MyProject-MyStage-Widget"
          KeyConditionExpression := "keyField = :k"
          ExpressionAttributeValues := [(":k", JSVal.str "a")]
          ExclusiveStartKey := none } samplePages).2.length = 2 := by
  decide

/-- C3 amended: `_getItem` and `_batchGetItems` issue exactly one remote
call per invocation; `_putItem` issues exactly one remote call when the
instance validates (and none otherwise); `_queryItems` issues one remote
call per page of the store's response stream, itself reissuing the query
on each continuation token — pagination lives in this internal layer. -/
theorem internal_ops_call_counts (m : DbModel) (key : Obj) (keys : List Obj)
    (gresp : GetOpts → Option Obj) (bresp : BatchGetOpts → List Obj)
    (presp : PutOpts → Obj) (opts : QuerySend) (pages : List QueryResp)
    (hwf : pagesWF pages = true)
    (hall : ∀ p ∈ m.schema.rules, p.2 (attrValue m.attrs p.1) = true) :
    (getItemRun m key gresp).2.length = 1
  ∧ (batchGetItemsRun m keys bresp).2.length = 1
  ∧ (putItemRun m presp).2.length = 1
  ∧ (queryItemsRun opts pages).2.length = pages.length := by
  have hf : firstFailure m.attrs m.schema.rules = none :=
    firstFailure_none_of_all m.attrs m.schema.rules hall
  refine ⟨rfl, rfl, ?_, (queryItemsRun_wf opts pages hwf).2.1⟩
  simp [putItemRun, Model.validate, hf]

/-- C3 amended witness: concrete counts for the sample instance and the
two-page stream. -/
theorem internal_ops_call_counts_witness :
    (putItemRun sampleValid (fun o => o.Item)).2.length = 1
  ∧ (queryItemsRun
        { TableName := "T"
          KeyConditionExpression := "keyField = :k"
          ExpressionAttributeValues := []
          ExclusiveStartKey := none } samplePages).2.length = 2 := by
  have h := internal_ops_call_counts sampleValid [] [] (fun _ => none)
    (fun _ => []) (fun o => o.Item)
    { TableName := "T"
      KeyConditionExpression := "keyField = :k"
      ExpressionAttributeValues := []
      ExclusiveStartKey := none } samplePages (by decide) (by decide)
  exact ⟨h.2.2.1, by rw [h.2.2.2]; rfl⟩

end Dynamorm
